import Mathlib

/-!
Shallow embedding of `ledger-v1/src/main.rs`: a minimal append-only
hash-linked ledger persisted in a key-value store, with a backward
integrity-validation loop.

External collaborators (the `sled` store, `serde_json`, `sha2`) are
modelled by their contracts: the store as a total map from string keys to
optional string values, with explicit per-operation failure flags where
the source propagates a store error; the block serializer as a parameter
pair `encodeBlock` / `decodeBlock` (serialization of a well-formed
in-memory block is total, deserialization of arbitrary bytes may fail —
invalid UTF-8 and unparsable JSON are folded into the single failing
decode step, since the source propagates both with `?` in the same way);
and the hash as a parameter `hashFn` applied to exactly the hashed tuple
`(timestamp, data, prev_hash)`.  Wall-clock timestamps
(`Utc::now().timestamp_millis()`) are environmental and passed as
explicit inputs.  Concrete executable instances of the parameters are
provided further below for witnesses and counterexamples.
-/

namespace LedgerV1

/-- The `Block` struct of main.rs: timestamp, payload, predecessor hash and
stored self hash. -/
structure Block where
  timestamp : Nat
  data : String
  prev_hash : String
  hash : String
deriving DecidableEq, Repr

/-- The key-value store underlying `sled::Db`: a map from byte keys to byte
values, both modelled as strings. -/
abbrev Store := String → Option String

/-- The empty store (first run). -/
def Store.empty : Store := fun _ => none

/-- Model of `db.insert(k, v)`. -/
def Store.insert (s : Store) (k v : String) : Store :=
  fun k2 => if k2 = k then some v else s k2

/-- Deletion of a key; not used by the program itself, it models external
tampering with the store (claim C5). -/
def Store.remove (s : Store) (k : String) : Store :=
  fun k2 => if k2 = k then none else s k2

/-- The error kinds surfaced through `Box<dyn Error>` in main.rs: store
operation failures, and decode failures (invalid UTF-8 or unparsable
serialization of fetched bytes). -/
inductive Err where
  | storeErr : Err
  | decodeErr : Err
deriving DecidableEq, Repr

/-- The diagnostics printed by `is_chain_valid` just before each of its
returns; each constructor corresponds to one `println!` of main.rs
(`Hash mismatch for block {h}`, `Chain valid. Genesis reached.`,
`Broken link! Could not find block: {h}`). -/
inductive Diag where
  | hashMismatch : String → Diag
  | genesisReached : Diag
  | brokenLink : String → Diag
deriving DecidableEq, Repr

section Model

variable (hashFn : Nat → String → String → String)
variable (encodeBlock : Block → String)
variable (decodeBlock : String → Option Block)

/-- `Block::calculate_hash` (main.rs 28-34): digest of exactly the tuple
`(self.timestamp, &self.data, &self.prev_hash)`; the stored hash field is
not part of the input. -/
def Block.calculate_hash (b : Block) : String :=
  hashFn b.timestamp b.data b.prev_hash

/-- `Block::new` (main.rs 16-26): build the block with an empty hash field,
then store the computed digest in it.  The timestamp is an input here
because the source reads the wall clock. -/
def Block.new (ts : Nat) (data prev_hash : String) : Block :=
  let block : Block := { timestamp := ts, data := data, prev_hash := prev_hash, hash := "" }
  { block with hash := Block.calculate_hash hashFn block }

/-- The `Blockchain` struct of main.rs: store handle plus in-memory tip. -/
structure Blockchain where
  db : Store
  current_hash : String

/-- `Blockchain::new` (main.rs 46-72): read the reserved `LAST` key; if
present, adopt it as the in-memory tip; if absent, synthesize the genesis
block with `prev_hash = "0"`, write it under its self-hash key, write the
`LAST` key, and adopt its hash.  `fGet`, `fIns1`, `fIns2` say whether the
`db.get`, first `db.insert`, second `db.insert` fail (each failure is
propagated by `?` in the source). -/
def Blockchain.new (ts : Nat) (db : Store) (fGet fIns1 fIns2 : Bool) :
    Except Err Blockchain :=
  if fGet then .error .storeErr
  else
    match db "LAST" with
    | some bytes => .ok { db := db, current_hash := bytes }
    | none =>
      let genesis := Block.new hashFn ts "Genesis Block" "0"
      let genesis_json := encodeBlock genesis
      if fIns1 then .error .storeErr
      else
        let db1 := db.insert genesis.hash genesis_json
        if fIns2 then .error .storeErr
        else
          let db2 := db1.insert "LAST" genesis.hash
          .ok { db := db2, current_hash := genesis.hash }

/-- `Blockchain::add_block` (main.rs 75-87): build the new block on the
current tip, write it under its self-hash key, rewrite the `LAST` key,
update the in-memory tip, then flush.  `fIns1`, `fIns2`, `fFlush` say
whether the two `db.insert` calls and the `db.flush` call fail.  The
returned pair is (result, post-state of `&mut self`); note that, exactly
as in the source, `self.current_hash` is assigned before `db.flush()` is
called. -/
def Blockchain.add_block (c : Blockchain) (ts : Nat) (data : String)
    (fIns1 fIns2 fFlush : Bool) : Except Err Unit × Blockchain :=
  let new_block := Block.new hashFn ts data c.current_hash
  let new_hash := new_block.hash
  let new_block_json := encodeBlock new_block
  if fIns1 then (.error .storeErr, c)
  else
    let db1 := c.db.insert new_block.hash new_block_json
    if fIns2 then (.error .storeErr, { c with db := db1 })
    else
      let db2 := db1.insert "LAST" new_hash
      let c2 : Blockchain := { db := db2, current_hash := new_hash }
      if fFlush then (.error .storeErr, c2)
      else (.ok (), c2)

/-- The loop of `Blockchain::is_chain_valid` (main.rs 115-156), with an
explicit fuel bound because the source's `loop` need not terminate on a
corrupted store: `none` means the loop is still running after `fuel`
iterations.  The `&self` receiver is threaded through and returned so
that the read-only claim C10 is statable.  Each iteration: look the
current hash up (missing ⇒ `Ok(false)` after the broken-link print);
decode the bytes (failure is propagated as an error by `?`); compare the
stored hash with the recomputed one (mismatch ⇒ `Ok(false)`); stop with
`Ok(true)` at `prev_hash == "0"`; otherwise follow `prev_hash`. -/
def Blockchain.is_chain_valid_go (c : Blockchain) :
    String → Nat → Option (Except Err Bool × Option Diag) × Blockchain
  | _, 0 => (none, c)
  | search_hash, fuel + 1 =>
    match c.db search_hash with
    | some bytes =>
      match decodeBlock bytes with
      | none => (some (.error .decodeErr, none), c)
      | some block =>
        if block.hash ≠ Block.calculate_hash hashFn block then
          (some (.ok false, some (.hashMismatch block.hash)), c)
        else if block.prev_hash = "0" then
          (some (.ok true, some .genesisReached), c)
        else
          Blockchain.is_chain_valid_go c block.prev_hash fuel
    | none => (some (.ok false, some (.brokenLink search_hash)), c)

/-- `Blockchain::is_chain_valid` starts its walk at the in-memory tip. -/
def Blockchain.is_chain_valid (c : Blockchain) (fuel : Nat) :
    Option (Except Err Bool × Option Diag) × Blockchain :=
  Blockchain.is_chain_valid_go hashFn decodeBlock c c.current_hash fuel

/-- Run a sequence of `add_block` calls (with every store operation
succeeding), propagating the first error as `main` would with `?`. -/
def runAppends (c : Blockchain) : List (Nat × String) → Except Err Blockchain
  | [] => .ok c
  | (ts, data) :: rest =>
    match Blockchain.add_block hashFn encodeBlock c ts data false false false with
    | (.ok _, c2) => runAppends c2 rest
    | (.error e, _) => .error e

/-- The blocks that a sequence of `add_block` calls starting from tip
`prev` constructs, in append order. -/
def chainBlocksAux (prev : String) : List (Nat × String) → List Block
  | [] => []
  | (ts, data) :: rest =>
    let b := Block.new hashFn ts data prev
    b :: chainBlocksAux b.hash rest

/-- All blocks of a chain built on an empty store: the genesis block that
`Blockchain::new` synthesizes, then the appended blocks in order. -/
def chainBlocks (tsg : Nat) (items : List (Nat × String)) : List Block :=
  let genesis := Block.new hashFn tsg "Genesis Block" "0"
  genesis :: chainBlocksAux hashFn genesis.hash items

/-- The self-hashes of `chainBlocks`, genesis first. -/
def chainHashes (tsg : Nat) (items : List (Nat × String)) : List String :=
  (chainBlocks hashFn tsg items).map Block.hash

/-- Well-formed chain in the store, listed tip first: each listed block is
stored under its own hash with decodable bytes and a consistent self
hash, each block's predecessor pointer is the next listed block's hash,
and the last listed block is a genesis block (`prev_hash = "0"`). -/
def chainOK (db : Store) : String → List Block → Prop
  | _, [] => False
  | h, b :: rest =>
    db h = some (encodeBlock b) ∧
    decodeBlock (encodeBlock b) = some b ∧
    b.hash = h ∧
    b.hash = Block.calculate_hash hashFn b ∧
    match rest with
    | [] => b.prev_hash = "0"
    | b2 :: _ => b.prev_hash = b2.hash ∧ b.prev_hash ≠ "0" ∧
        chainOK db b.prev_hash rest

end Model

/-!
Concrete executable instances of the hasher and serializer parameters,
used by witnesses and counterexamples.  They realize the contracts the
source obtains from `sha2`/`serde_json` (deterministic digest of the
field tuple; stable self-describing record encoding with a decoder that
inverts it), via a simple escaped, terminated character encoding whose
decoder is proved to be a left inverse.
-/

/-- Unary encoding of a natural number, terminated by `T`. -/
def encNat : Nat → List Char
  | 0 => ['T']
  | n + 1 => 'U' :: encNat n

/-- Decoder for `encNat`; returns the value and the remaining input. -/
def decNat : List Char → Option (Nat × List Char)
  | 'T' :: rest => some (0, rest)
  | 'U' :: rest =>
    match decNat rest with
    | some (n, r) => some (n + 1, r)
    | none => none
  | _ => none

/-- Escape every character behind `E` and terminate with `T`, so that a
field of arbitrary content has an unambiguous end. -/
def escList : List Char → List Char
  | [] => ['T']
  | c :: cs => 'E' :: c :: escList cs

/-- Decoder for `escList`; returns the field and the remaining input. -/
def decField : List Char → Option (List Char × List Char)
  | 'T' :: rest => some ([], rest)
  | 'E' :: c :: rest =>
    match decField rest with
    | some (f, r) => some (c :: f, r)
    | none => none
  | _ => none

theorem decNat_encNat (n : Nat) (rest : List Char) :
    decNat (encNat n ++ rest) = some (n, rest) := by
  induction n with
  | zero => simp [encNat, decNat]
  | succ n ih => simp [encNat, decNat, ih]

theorem decField_escList (s : List Char) (rest : List Char) :
    decField (escList s ++ rest) = some (s, rest) := by
  induction s with
  | nil => simp [escList, decField]
  | cons c cs ih => simp [escList, decField, ih]

/-- Concrete block serializer: the four fields in declaration order, each
self-terminated. -/
def concEnc (b : Block) : String :=
  String.mk (encNat b.timestamp ++ escList b.data.data ++
    escList b.prev_hash.data ++ escList b.hash.data)

/-- Concrete block deserializer; fails on any string that is not exactly
an encoded block. -/
def concDec (s : String) : Option Block :=
  match decNat s.data with
  | some (t, r1) =>
    match decField r1 with
    | some (d, r2) =>
      match decField r2 with
      | some (p, r3) =>
        match decField r3 with
        | some (h, []) => some ⟨t, String.mk d, String.mk p, String.mk h⟩
        | some (_, _ :: _) => none
        | none => none
      | none => none
    | none => none
  | none => none

theorem decField_escList_nil (s : List Char) :
    decField (escList s) = some (s, []) := by
  have h := decField_escList s []
  simpa using h

/-- The concrete deserializer inverts the concrete serializer. -/
theorem concDec_concEnc (b : Block) : concDec (concEnc b) = some b := by
  simp [concEnc, concDec, List.append_assoc, decNat_encNat, decField_escList,
    decField_escList_nil]

/-- Concrete hasher: deterministic digest of exactly the hashed tuple,
prefixed with `H` (so it is never the root sentinel `"0"` nor the
reserved key `"LAST"`). -/
def hashFnC (t : Nat) (d p : String) : String :=
  String.mk ('H' :: (encNat t ++ escList d.data ++ escList p.data))

/-- A collapsing hasher (all inputs share one digest), used to exhibit a
hash-consistent predecessor cycle for the termination counterexample. -/
def constHash (_ : Nat) (_ : String) (_ : String) : String := "C"

/-! Small unfolding and frame lemmas. -/

@[simp] theorem Store.insert_self (s : Store) (k v : String) :
    s.insert k v k = some v := by
  simp [Store.insert]

theorem Store.insert_ne (s : Store) (k v k2 : String) (h : k2 ≠ k) :
    s.insert k v k2 = s k2 := by
  simp [Store.insert, h]

@[simp] theorem Store.remove_self (s : Store) (k : String) :
    s.remove k k = none := by
  simp [Store.remove]

theorem Store.remove_ne (s : Store) (k k2 : String) (h : k2 ≠ k) :
    s.remove k k2 = s k2 := by
  simp [Store.remove, h]

@[simp] theorem Block.new_timestamp (hashFn : Nat → String → String → String)
    (ts : Nat) (d p : String) : (Block.new hashFn ts d p).timestamp = ts := rfl

@[simp] theorem Block.new_data (hashFn : Nat → String → String → String)
    (ts : Nat) (d p : String) : (Block.new hashFn ts d p).data = d := rfl

@[simp] theorem Block.new_prev_hash (hashFn : Nat → String → String → String)
    (ts : Nat) (d p : String) : (Block.new hashFn ts d p).prev_hash = p := rfl

@[simp] theorem Block.new_hash (hashFn : Nat → String → String → String)
    (ts : Nat) (d p : String) : (Block.new hashFn ts d p).hash = hashFn ts d p := rfl

/-- A freshly constructed block satisfies the self-hash invariant. -/
theorem Block.new_consistent (hashFn : Nat → String → String → String)
    (ts : Nat) (d p : String) :
    (Block.new hashFn ts d p).hash
      = Block.calculate_hash hashFn (Block.new hashFn ts d p) := rfl

theorem chainOK_nil (hashFn : Nat → String → String → String)
    (encodeBlock : Block → String) (decodeBlock : String → Option Block)
    (db : Store) (h : String) :
    ¬ chainOK hashFn encodeBlock decodeBlock db h [] := fun hf => hf

theorem chainOK_cons (hashFn : Nat → String → String → String)
    (encodeBlock : Block → String) (decodeBlock : String → Option Block)
    (db : Store) (h : String) (b : Block) (rest : List Block) :
    chainOK hashFn encodeBlock decodeBlock db h (b :: rest) ↔
      (db h = some (encodeBlock b) ∧
       decodeBlock (encodeBlock b) = some b ∧
       b.hash = h ∧
       b.hash = Block.calculate_hash hashFn b ∧
       match rest with
       | [] => b.prev_hash = "0"
       | b2 :: _ => b.prev_hash = b2.hash ∧ b.prev_hash ≠ "0" ∧
           chainOK hashFn encodeBlock decodeBlock db b.prev_hash rest) := Iff.rfl

theorem is_chain_valid_go_succ (hashFn : Nat → String → String → String)
    (decodeBlock : String → Option Block) (c : Blockchain) (h : String) (fuel : Nat) :
    Blockchain.is_chain_valid_go hashFn decodeBlock c h (fuel + 1) =
      match c.db h with
      | some bytes =>
        match decodeBlock bytes with
        | none => (some (.error .decodeErr, none), c)
        | some block =>
          if block.hash ≠ Block.calculate_hash hashFn block then
            (some (.ok false, some (.hashMismatch block.hash)), c)
          else if block.prev_hash = "0" then
            (some (.ok true, some .genesisReached), c)
          else
            Blockchain.is_chain_valid_go hashFn decodeBlock c block.prev_hash fuel
      | none => (some (.ok false, some (.brokenLink h)), c) := rfl

/-- Validation walks a well-formed chain to its genesis block and reports
it valid, using one fuel unit per block. -/
theorem chainOK_valid (hashFn : Nat → String → String → String)
    (encodeBlock : Block → String) (decodeBlock : String → Option Block)
    (c : Blockchain) :
    ∀ (bs : List Block) (h : String),
      chainOK hashFn encodeBlock decodeBlock c.db h bs →
      Blockchain.is_chain_valid_go hashFn decodeBlock c h bs.length
        = (some (.ok true, some .genesisReached), c) := by
  intro bs
  induction bs with
  | nil => exact fun h hok => absurd hok (chainOK_nil _ _ _ _ _)
  | cons b rest ih =>
    intro h hok
    rw [chainOK_cons] at hok
    obtain ⟨hdb, hdec, _, hcons, htail⟩ := hok
    rw [List.length_cons, is_chain_valid_go_succ]
    simp only [hdb, hdec]
    rw [if_neg (show ¬ b.hash ≠ Block.calculate_hash hashFn b from fun hne => hne hcons)]
    cases rest with
    | nil => rw [if_pos htail]
    | cons b2 rest2 =>
      obtain ⟨hprev, hprev0, hchain⟩ := htail
      rw [if_neg hprev0]
      exact ih b.prev_hash hchain

/-- Frame lemma: inserting at a key that is not the hash of any chain
block preserves chain well-formedness. -/
theorem chainOK_insert (hashFn : Nat → String → String → String)
    (encodeBlock : Block → String) (decodeBlock : String → Option Block)
    (db : Store) (k v : String) :
    ∀ (bs : List Block) (h : String),
      chainOK hashFn encodeBlock decodeBlock db h bs →
      k ∉ bs.map Block.hash →
      chainOK hashFn encodeBlock decodeBlock (db.insert k v) h bs := by
  intro bs
  induction bs with
  | nil => exact fun h hok _ => absurd hok (chainOK_nil _ _ _ _ _)
  | cons b rest ih =>
    intro h hok hk
    rw [chainOK_cons] at hok ⊢
    obtain ⟨hdb, hdec, hbh, hcons, htail⟩ := hok
    have hkb : k ≠ b.hash := by
      intro he
      exact hk (by simp [he])
    have hkrest : k ∉ rest.map Block.hash := by
      intro he
      exact hk (by simp [he])
    refine ⟨?_, hdec, hbh, hcons, ?_⟩
    · rw [Store.insert_ne db k v h (by rw [← hbh]; exact fun he => hkb he.symm), hdb]
    · cases rest with
      | nil => exact htail
      | cons b2 rest2 =>
        obtain ⟨hprev, hprev0, hchain⟩ := htail
        exact ⟨hprev, hprev0, ih b.prev_hash hchain hkrest⟩

/-- Walk lemma for tampering: overwrite the store entry of one chain
block with a block that keeps the stored hash but whose recomputed hash
differs; validation then stops at that block with the hash-mismatch
diagnostic carrying its hash. -/
theorem chainOK_tamper_walk (hashFn : Nat → String → String → String)
    (encodeBlock : Block → String) (decodeBlock : String → Option Block)
    (c : Blockchain) (db : Store) (b0 b' : Block)
    (hket : b'.hash = b0.hash)
    (hmm : b'.hash ≠ Block.calculate_hash hashFn b')
    (hdecb : decodeBlock (encodeBlock b') = some b') :
    ∀ (bs : List Block) (h : String),
      chainOK hashFn encodeBlock decodeBlock db h bs →
      b0 ∈ bs →
      (bs.map Block.hash).Nodup →
      c.db = db.insert b0.hash (encodeBlock b') →
      Blockchain.is_chain_valid_go hashFn decodeBlock c h bs.length
        = (some (.ok false, some (.hashMismatch b0.hash)), c) := by
  intro bs
  induction bs with
  | nil => exact fun h hok _ _ _ => absurd hok (chainOK_nil _ _ _ _ _)
  | cons b rest ih =>
    intro h hok hmem hnd hcdb
    rw [chainOK_cons] at hok
    obtain ⟨hdb, hdec, hbh, hcons, htail⟩ := hok
    rw [List.length_cons, is_chain_valid_go_succ]
    by_cases hb : b = b0
    · have hh : h = b0.hash := by rw [← hbh, hb]
      rw [hcdb, hh]
      simp only [Store.insert_self, hdecb]
      rw [if_pos hmm, hket]
    · have hb0rest : b0 ∈ rest := by
        cases hmem with
        | head => exact absurd rfl hb
        | tail _ hm => exact hm
      have hbne : b.hash ≠ b0.hash := by
        intro he
        rw [List.map_cons, List.nodup_cons] at hnd
        exact hnd.1 (he ▸ List.mem_map_of_mem Block.hash hb0rest)
      rw [hcdb, Store.insert_ne db b0.hash (encodeBlock b') h
        (by rw [← hbh]; exact hbne)]
      simp only [hdb, hdec]
      rw [if_neg (show ¬ b.hash ≠ Block.calculate_hash hashFn b from fun hne => hne hcons)]
      cases rest with
      | nil => exact absurd hb0rest (List.not_mem_nil b0)
      | cons b2 rest2 =>
        obtain ⟨hprev, hprev0, hchain⟩ := htail
        rw [if_neg hprev0]
        rw [List.map_cons, List.nodup_cons] at hnd
        exact ih b.prev_hash hchain hb0rest hnd.2 hcdb

/-- Walk lemma for deletion: remove the store entry of one chain block;
validation then stops at the missing block with the broken-link
diagnostic carrying its hash. -/
theorem chainOK_remove_walk (hashFn : Nat → String → String → String)
    (encodeBlock : Block → String) (decodeBlock : String → Option Block)
    (c : Blockchain) (db : Store) (b0 : Block) :
    ∀ (bs : List Block) (h : String),
      chainOK hashFn encodeBlock decodeBlock db h bs →
      b0 ∈ bs →
      (bs.map Block.hash).Nodup →
      c.db = db.remove b0.hash →
      Blockchain.is_chain_valid_go hashFn decodeBlock c h bs.length
        = (some (.ok false, some (.brokenLink b0.hash)), c) := by
  intro bs
  induction bs with
  | nil => exact fun h hok _ _ _ => absurd hok (chainOK_nil _ _ _ _ _)
  | cons b rest ih =>
    intro h hok hmem hnd hcdb
    rw [chainOK_cons] at hok
    obtain ⟨hdb, hdec, hbh, hcons, htail⟩ := hok
    rw [List.length_cons, is_chain_valid_go_succ]
    by_cases hb : b = b0
    · have hh : h = b0.hash := by rw [← hbh, hb]
      rw [hcdb, hh, Store.remove_self]
    · have hb0rest : b0 ∈ rest := by
        cases hmem with
        | head => exact absurd rfl hb
        | tail _ hm => exact hm
      have hbne : b.hash ≠ b0.hash := by
        intro he
        rw [List.map_cons, List.nodup_cons] at hnd
        exact hnd.1 (he ▸ List.mem_map_of_mem Block.hash hb0rest)
      rw [hcdb, Store.remove_ne db b0.hash h (by rw [← hbh]; exact hbne)]
      simp only [hdb, hdec]
      rw [if_neg (show ¬ b.hash ≠ Block.calculate_hash hashFn b from fun hne => hne hcons)]
      cases rest with
      | nil => exact absurd hb0rest (List.not_mem_nil b0)
      | cons b2 rest2 =>
        obtain ⟨hprev, hprev0, hchain⟩ := htail
        rw [if_neg hprev0]
        rw [List.map_cons, List.nodup_cons] at hnd
        exact ih b.prev_hash hchain hb0rest hnd.2 hcdb

/-- `Blockchain::new` on the empty store takes the first-run branch:
genesis block written under its hash, `LAST` written, tip set. -/
theorem blockchain_new_empty (hashFn : Nat → String → String → String)
    (encodeBlock : Block → String) (ts : Nat) :
    Blockchain.new hashFn encodeBlock ts Store.empty false false false =
      .ok { db := (Store.empty.insert (Block.new hashFn ts "Genesis Block" "0").hash
              (encodeBlock (Block.new hashFn ts "Genesis Block" "0"))).insert "LAST"
              (Block.new hashFn ts "Genesis Block" "0").hash,
            current_hash := (Block.new hashFn ts "Genesis Block" "0").hash } := rfl

/-- The store produced by the first-run branch carries a well-formed
one-block chain. -/
theorem chainOK_singleton (hashFn : Nat → String → String → String)
    (encodeBlock : Block → String) (decodeBlock : String → Option Block)
    (db : Store) (g : Block)
    (hdec : decodeBlock (encodeBlock g) = some g)
    (hcons : g.hash = Block.calculate_hash hashFn g)
    (hprev : g.prev_hash = "0")
    (hne : g.hash ≠ "LAST") :
    chainOK hashFn encodeBlock decodeBlock
      ((db.insert g.hash (encodeBlock g)).insert "LAST" g.hash) g.hash [g] := by
  rw [chainOK_cons]
  refine ⟨?_, hdec, rfl, hcons, hprev⟩
  rw [Store.insert_ne _ "LAST" _ _ hne, Store.insert_self]

/-- A successful `add_block` (all store operations succeed): the result
value, the two store writes, and the advanced tip, spelled out. -/
theorem add_block_ok (hashFn : Nat → String → String → String)
    (encodeBlock : Block → String) (c : Blockchain) (ts : Nat) (d : String) :
    Blockchain.add_block hashFn encodeBlock c ts d false false false =
      (.ok (),
       { db := (c.db.insert (Block.new hashFn ts d c.current_hash).hash
            (encodeBlock (Block.new hashFn ts d c.current_hash))).insert "LAST"
            (Block.new hashFn ts d c.current_hash).hash,
         current_hash := (Block.new hashFn ts d c.current_hash).hash }) := rfl

/-- Running a sequence of successful appends on a well-formed chain
succeeds and extends the chain by exactly the constructed blocks, as long
as the constructed hashes are fresh, mutually distinct, and avoid the two
reserved strings. -/
theorem runAppends_ok (hashFn : Nat → String → String → String)
    (encodeBlock : Block → String) (decodeBlock : String → Option Block) :
    ∀ (items : List (Nat × String)) (c : Blockchain) (bs : List Block),
      chainOK hashFn encodeBlock decodeBlock c.db c.current_hash bs →
      (∀ x ∈ bs.map Block.hash, x ≠ "0" ∧ x ≠ "LAST") →
      (∀ b ∈ chainBlocksAux hashFn c.current_hash items,
        decodeBlock (encodeBlock b) = some b) →
      ((chainBlocksAux hashFn c.current_hash items).map Block.hash).Nodup →
      (∀ x ∈ (chainBlocksAux hashFn c.current_hash items).map Block.hash,
        x ∉ bs.map Block.hash ∧ x ≠ "0" ∧ x ≠ "LAST") →
      ∃ c2, runAppends hashFn encodeBlock c items = .ok c2 ∧
        chainOK hashFn encodeBlock decodeBlock c2.db c2.current_hash
          ((chainBlocksAux hashFn c.current_hash items).reverse ++ bs) := by
  intro items
  induction items with
  | nil =>
    intro c bs hok hbs _ _ _
    exact ⟨c, rfl, by simpa [chainBlocksAux] using hok⟩
  | cons item rest ih =>
    obtain ⟨ts, d⟩ := item
    intro c bs hok hbs hdecs hnd hfresh
    cases bs with
    | nil => exact absurd hok (chainOK_nil _ _ _ _ _)
    | cons bHead bs' =>
      have haux : chainBlocksAux hashFn c.current_hash ((ts, d) :: rest)
          = Block.new hashFn ts d c.current_hash
            :: chainBlocksAux hashFn (Block.new hashFn ts d c.current_hash).hash rest := rfl
      rw [haux] at hdecs hnd hfresh ⊢
      have hfreshNb := hfresh (Block.new hashFn ts d c.current_hash).hash (by simp)
      have hok' := hok
      rw [chainOK_cons] at hok'
      obtain ⟨hdbH, hdecH, hbhH, hconsH, htailH⟩ := hok'
      -- the two store writes preserve the existing chain
      have hok1 : chainOK hashFn encodeBlock decodeBlock
          (c.db.insert (Block.new hashFn ts d c.current_hash).hash
            (encodeBlock (Block.new hashFn ts d c.current_hash)))
          c.current_hash (bHead :: bs') :=
        chainOK_insert hashFn encodeBlock decodeBlock c.db _ _ _ _ hok hfreshNb.1
      have hok2 : chainOK hashFn encodeBlock decodeBlock
          ((c.db.insert (Block.new hashFn ts d c.current_hash).hash
            (encodeBlock (Block.new hashFn ts d c.current_hash))).insert "LAST"
            (Block.new hashFn ts d c.current_hash).hash)
          c.current_hash (bHead :: bs') := by
        refine chainOK_insert hashFn encodeBlock decodeBlock _ _ _ _ _ hok1 ?_
        intro hmem
        exact (hbs "LAST" hmem).2 rfl
      -- the extended chain is well-formed
      have hok3 : chainOK hashFn encodeBlock decodeBlock
          ((c.db.insert (Block.new hashFn ts d c.current_hash).hash
            (encodeBlock (Block.new hashFn ts d c.current_hash))).insert "LAST"
            (Block.new hashFn ts d c.current_hash).hash)
          (Block.new hashFn ts d c.current_hash).hash
          (Block.new hashFn ts d c.current_hash :: bHead :: bs') := by
        rw [chainOK_cons]
        refine ⟨?_, hdecs _ (by simp), rfl, Block.new_consistent hashFn ts d c.current_hash,
          ?_, ?_, hok2⟩
        · rw [Store.insert_ne _ "LAST" _ _ hfreshNb.2.2, Store.insert_self]
        · exact hbhH.symm
        · exact (hbs bHead.hash (by simp) |>.1) ∘ (fun he => hbhH ▸ he)
      -- feed the extended state to the induction hypothesis
      have hstep := ih
        { db := (c.db.insert (Block.new hashFn ts d c.current_hash).hash
            (encodeBlock (Block.new hashFn ts d c.current_hash))).insert "LAST"
            (Block.new hashFn ts d c.current_hash).hash,
          current_hash := (Block.new hashFn ts d c.current_hash).hash }
        (Block.new hashFn ts d c.current_hash :: bHead :: bs')
        hok3
        (by
          intro x hx
          rw [List.map_cons] at hx
          cases hx with
          | head => exact ⟨hfreshNb.2.1, hfreshNb.2.2⟩
          | tail _ hm => exact hbs x hm)
        (by
          intro b hb
          exact hdecs b (List.mem_cons_of_mem _ hb))
        (by
          rw [List.map_cons, List.nodup_cons] at hnd
          exact hnd.2)
        (by
          intro x hx
          rw [List.map_cons, List.nodup_cons] at hnd
          have hxf := hfresh x (by rw [List.map_cons]; exact List.mem_cons_of_mem _ hx)
          refine ⟨?_, hxf.2.1, hxf.2.2⟩
          intro hmem
          rw [List.map_cons] at hmem
          cases hmem with
          | head => exact hnd.1 hx
          | tail _ hm => exact hxf.1 hm)
      obtain ⟨c3, hrun3, hok4⟩ := hstep
      refine ⟨c3, ?_, ?_⟩
      · show (match Blockchain.add_block hashFn encodeBlock c ts d false false false with
          | (.ok _, c2) => runAppends hashFn encodeBlock c2 rest
          | (.error e, _) => .error e) = .ok c3
        rw [add_block_ok]
        exact hrun3
      · rw [List.reverse_cons, List.append_assoc]
        exact hok4

theorem chainBlocks_def (hashFn : Nat → String → String → String)
    (tsg : Nat) (items : List (Nat × String)) :
    chainBlocks hashFn tsg items
      = Block.new hashFn tsg "Genesis Block" "0"
        :: chainBlocksAux hashFn (Block.new hashFn tsg "Genesis Block" "0").hash items := rfl

theorem chainHashes_def (hashFn : Nat → String → String → String)
    (tsg : Nat) (items : List (Nat × String)) :
    chainHashes hashFn tsg items
      = (Block.new hashFn tsg "Genesis Block" "0").hash
        :: (chainBlocksAux hashFn (Block.new hashFn tsg "Genesis Block" "0").hash items).map
            Block.hash := rfl

/-!
Claim theorems.
-/

/-- The chain listed tip-first is a permutation of the chain listed in
append order. -/
theorem chain_reverse_perm (hashFn : Nat → String → String → String)
    (tsg : Nat) (items : List (Nat × String)) :
    ((chainBlocksAux hashFn (Block.new hashFn tsg "Genesis Block" "0").hash items).reverse
      ++ [Block.new hashFn tsg "Genesis Block" "0"]).Perm
      (chainBlocks hashFn tsg items) := by
  rw [chainBlocks_def]
  exact (((chainBlocksAux hashFn (Block.new hashFn tsg "Genesis Block" "0").hash
    items).reverse_perm).append_right _).trans
    (List.perm_append_singleton _ _)

/-- Shared core of claims C3/C4/C5: building the chain by `Blockchain::new`
on the empty store followed by `runAppends` succeeds and leaves a
well-formed stored chain, listed tip first. -/
theorem build_chainOK (hashFn : Nat → String → String → String)
    (encodeBlock : Block → String) (decodeBlock : String → Option Block)
    (tsg : Nat) (items : List (Nat × String))
    (hdec : ∀ b ∈ chainBlocks hashFn tsg items, decodeBlock (encodeBlock b) = some b)
    (hnodup : (chainHashes hashFn tsg items).Nodup)
    (hne : ∀ x ∈ chainHashes hashFn tsg items, x ≠ "0" ∧ x ≠ "LAST") :
    ∃ c : Blockchain,
      runAppends hashFn encodeBlock
        { db := (Store.empty.insert (Block.new hashFn tsg "Genesis Block" "0").hash
            (encodeBlock (Block.new hashFn tsg "Genesis Block" "0"))).insert "LAST"
            (Block.new hashFn tsg "Genesis Block" "0").hash,
          current_hash := (Block.new hashFn tsg "Genesis Block" "0").hash } items = .ok c ∧
      chainOK hashFn encodeBlock decodeBlock c.db c.current_hash
        ((chainBlocksAux hashFn (Block.new hashFn tsg "Genesis Block" "0").hash items).reverse
          ++ [Block.new hashFn tsg "Genesis Block" "0"]) := by
  rw [chainHashes_def] at hnodup hne
  rw [chainBlocks_def] at hdec
  have hg0 := hne _ (List.mem_cons_self _ _)
  have hok0 := chainOK_singleton hashFn encodeBlock decodeBlock Store.empty
    (Block.new hashFn tsg "Genesis Block" "0")
    (hdec _ (List.mem_cons_self _ _))
    (Block.new_consistent hashFn tsg "Genesis Block" "0") rfl hg0.2
  rw [List.nodup_cons] at hnodup
  exact runAppends_ok hashFn encodeBlock decodeBlock items
    { db := (Store.empty.insert (Block.new hashFn tsg "Genesis Block" "0").hash
        (encodeBlock (Block.new hashFn tsg "Genesis Block" "0"))).insert "LAST"
        (Block.new hashFn tsg "Genesis Block" "0").hash,
      current_hash := (Block.new hashFn tsg "Genesis Block" "0").hash }
    [Block.new hashFn tsg "Genesis Block" "0"]
    hok0
    (by
      intro x hx
      rw [List.map_cons, List.map_nil, List.mem_singleton] at hx
      rw [hx]
      exact hg0)
    (by
      intro b hb
      exact hdec b (List.mem_cons_of_mem _ hb))
    hnodup.2
    (by
      intro x hx
      refine ⟨?_, hne x (List.mem_cons_of_mem _ hx)⟩
      rw [List.map_cons, List.map_nil, List.mem_singleton]
      intro he
      exact hnodup.1 (he ▸ hx))

/-- Claim C3: for every finite sequence of payloads, opening a chain on an
empty store (which creates the genesis block with predecessor hash `"0"`)
and then appending each payload in order, with every store operation
succeeding, yields a chain on which validation returns the valid result.
The hypotheses are the contracts of the external collaborators: the
serializer round-trips on the chain's blocks, and the digests produced
along the chain are pairwise distinct and are neither the root sentinel
nor the reserved tip key (spec §4.1's collision-resistance guarantee;
256-bit hex digests are never `"0"` or `"LAST"`). -/
theorem C3_open_append_validate_valid
    (hashFn : Nat → String → String → String)
    (encodeBlock : Block → String) (decodeBlock : String → Option Block)
    (tsg : Nat) (items : List (Nat × String))
    (hdec : ∀ b ∈ chainBlocks hashFn tsg items, decodeBlock (encodeBlock b) = some b)
    (hnodup : (chainHashes hashFn tsg items).Nodup)
    (hne : ∀ x ∈ chainHashes hashFn tsg items, x ≠ "0" ∧ x ≠ "LAST") :
    ∃ c0 c : Blockchain,
      Blockchain.new hashFn encodeBlock tsg Store.empty false false false = .ok c0 ∧
      runAppends hashFn encodeBlock c0 items = .ok c ∧
      ∃ fuel, (Blockchain.is_chain_valid hashFn decodeBlock c fuel).1
        = some (.ok true, some .genesisReached) := by
  obtain ⟨c, hrun, hok⟩ :=
    build_chainOK hashFn encodeBlock decodeBlock tsg items hdec hnodup hne
  refine ⟨_, c, blockchain_new_empty hashFn encodeBlock tsg, hrun,
    ((chainBlocksAux hashFn (Block.new hashFn tsg "Genesis Block" "0").hash items).reverse
      ++ [Block.new hashFn tsg "Genesis Block" "0"]).length, ?_⟩
  show (Blockchain.is_chain_valid_go hashFn decodeBlock c c.current_hash _).1
    = some (.ok true, some .genesisReached)
  rw [chainOK_valid hashFn encodeBlock decodeBlock c _ c.current_hash hok]

/-- Claim C4: on a chain built by open and appends, overwriting the store
entry of any one chain block with an altered block that keeps the stored
`self_hash` (e.g. an edited payload or timestamp) makes validation
return the invalid result with the hash-mismatch diagnostic naming that
block's hash.  Collision resistance of the hasher enters as the
hypothesis that the altered block's recomputed digest differs from its
stored one. -/
theorem C4_tampered_block_detected
    (hashFn : Nat → String → String → String)
    (encodeBlock : Block → String) (decodeBlock : String → Option Block)
    (tsg : Nat) (items : List (Nat × String))
    (hdec : ∀ b ∈ chainBlocks hashFn tsg items, decodeBlock (encodeBlock b) = some b)
    (hnodup : (chainHashes hashFn tsg items).Nodup)
    (hne : ∀ x ∈ chainHashes hashFn tsg items, x ≠ "0" ∧ x ≠ "LAST")
    (b0 : Block) (hmem : b0 ∈ chainBlocks hashFn tsg items)
    (b' : Block) (hket : b'.hash = b0.hash)
    (hmm : b'.hash ≠ Block.calculate_hash hashFn b')
    (hdecb : decodeBlock (encodeBlock b') = some b') :
    ∃ c0 c : Blockchain,
      Blockchain.new hashFn encodeBlock tsg Store.empty false false false = .ok c0 ∧
      runAppends hashFn encodeBlock c0 items = .ok c ∧
      ∃ fuel, (Blockchain.is_chain_valid hashFn decodeBlock
          { db := c.db.insert b0.hash (encodeBlock b'),
            current_hash := c.current_hash } fuel).1
        = some (.ok false, some (.hashMismatch b0.hash)) := by
  obtain ⟨c, hrun, hok⟩ :=
    build_chainOK hashFn encodeBlock decodeBlock tsg items hdec hnodup hne
  have hperm := chain_reverse_perm hashFn tsg items
  have hmem' := hperm.mem_iff.mpr hmem
  have hnd' : (((chainBlocksAux hashFn (Block.new hashFn tsg "Genesis Block" "0").hash
      items).reverse ++ [Block.new hashFn tsg "Genesis Block" "0"]).map Block.hash).Nodup := by
    refine ((hperm.map Block.hash).nodup_iff).mpr ?_
    rw [← chainHashes]
    exact hnodup
  have hwalk := chainOK_tamper_walk hashFn encodeBlock decodeBlock
    { db := c.db.insert b0.hash (encodeBlock b'), current_hash := c.current_hash }
    c.db b0 b' hket hmm hdecb _ c.current_hash hok hmem' hnd' rfl
  refine ⟨_, c, blockchain_new_empty hashFn encodeBlock tsg, hrun,
    ((chainBlocksAux hashFn (Block.new hashFn tsg "Genesis Block" "0").hash items).reverse
      ++ [Block.new hashFn tsg "Genesis Block" "0"]).length, ?_⟩
  show (Blockchain.is_chain_valid_go hashFn decodeBlock
    { db := c.db.insert b0.hash (encodeBlock b'), current_hash := c.current_hash }
    c.current_hash _).1 = some (.ok false, some (.hashMismatch b0.hash))
  rw [hwalk]

/-- The concrete genesis block under the concrete hasher. -/
def demoGenesis : Block := Block.new hashFnC 0 "Genesis Block" "0"

/-- A payload-edited copy of `demoGenesis` that keeps the stored hash. -/
def tamperedGenesis : Block :=
  { timestamp := 0, data := "EVIL", prev_hash := "0", hash := demoGenesis.hash }

/-- Witness for claim C4 at the concrete instances: the genesis block of a
one-block chain is overwritten with a payload-edited block that keeps the
stored hash, and validation reports the mismatch at that hash. -/
theorem C4_tampered_block_detected_witness :
    (demoGenesis ∈ chainBlocks hashFnC 0 []) ∧
    tamperedGenesis.hash ≠ Block.calculate_hash hashFnC tamperedGenesis ∧
    (∃ c0 c : Blockchain,
      Blockchain.new hashFnC concEnc 0 Store.empty false false false = .ok c0 ∧
      runAppends hashFnC concEnc c0 [] = .ok c ∧
      ∃ fuel, (Blockchain.is_chain_valid hashFnC concDec
          { db := c.db.insert demoGenesis.hash (concEnc tamperedGenesis),
            current_hash := c.current_hash } fuel).1
        = some (.ok false, some (.hashMismatch demoGenesis.hash))) :=
  ⟨by decide, by decide,
   C4_tampered_block_detected hashFnC concEnc concDec 0 []
     (fun b _ => concDec_concEnc b) (by decide) (by decide)
     demoGenesis (by decide)
     tamperedGenesis rfl (by decide) (concDec_concEnc _)⟩

/-- Claim C5: on a chain built by open and appends, deleting the store
entry of a block that the chain references (by a successor's
`predecessor_hash`, or by the tip when it is the tip block) makes
validation return the invalid result with the broken-link diagnostic
naming the missing block's hash. -/
theorem C5_deleted_block_broken_link
    (hashFn : Nat → String → String → String)
    (encodeBlock : Block → String) (decodeBlock : String → Option Block)
    (tsg : Nat) (items : List (Nat × String))
    (hdec : ∀ b ∈ chainBlocks hashFn tsg items, decodeBlock (encodeBlock b) = some b)
    (hnodup : (chainHashes hashFn tsg items).Nodup)
    (hne : ∀ x ∈ chainHashes hashFn tsg items, x ≠ "0" ∧ x ≠ "LAST")
    (b0 : Block) (hmem : b0 ∈ chainBlocks hashFn tsg items) :
    ∃ c0 c : Blockchain,
      Blockchain.new hashFn encodeBlock tsg Store.empty false false false = .ok c0 ∧
      runAppends hashFn encodeBlock c0 items = .ok c ∧
      ∃ fuel, (Blockchain.is_chain_valid hashFn decodeBlock
          { db := c.db.remove b0.hash, current_hash := c.current_hash } fuel).1
        = some (.ok false, some (.brokenLink b0.hash)) := by
  obtain ⟨c, hrun, hok⟩ :=
    build_chainOK hashFn encodeBlock decodeBlock tsg items hdec hnodup hne
  have hperm := chain_reverse_perm hashFn tsg items
  have hmem' := hperm.mem_iff.mpr hmem
  have hnd' : (((chainBlocksAux hashFn (Block.new hashFn tsg "Genesis Block" "0").hash
      items).reverse ++ [Block.new hashFn tsg "Genesis Block" "0"]).map Block.hash).Nodup := by
    refine ((hperm.map Block.hash).nodup_iff).mpr ?_
    rw [← chainHashes]
    exact hnodup
  have hwalk := chainOK_remove_walk hashFn encodeBlock decodeBlock
    { db := c.db.remove b0.hash, current_hash := c.current_hash }
    c.db b0 _ c.current_hash hok hmem' hnd' rfl
  refine ⟨_, c, blockchain_new_empty hashFn encodeBlock tsg, hrun,
    ((chainBlocksAux hashFn (Block.new hashFn tsg "Genesis Block" "0").hash items).reverse
      ++ [Block.new hashFn tsg "Genesis Block" "0"]).length, ?_⟩
  show (Blockchain.is_chain_valid_go hashFn decodeBlock
    { db := c.db.remove b0.hash, current_hash := c.current_hash }
    c.current_hash _).1 = some (.ok false, some (.brokenLink b0.hash))
  rw [hwalk]

/-- Witness for claim C5 at the concrete instances: on the chain with one
appended block, the genesis entry (referenced by the appended block's
predecessor pointer) is deleted, and validation reports the broken link
at the genesis hash. -/
theorem C5_deleted_block_broken_link_witness :
    (demoGenesis ∈ chainBlocks hashFnC 0 [(1, "A")]) ∧
    (chainHashes hashFnC 0 [(1, "A")]).Nodup ∧
    (∃ c0 c : Blockchain,
      Blockchain.new hashFnC concEnc 0 Store.empty false false false = .ok c0 ∧
      runAppends hashFnC concEnc c0 [(1, "A")] = .ok c ∧
      ∃ fuel, (Blockchain.is_chain_valid hashFnC concDec
          { db := c.db.remove demoGenesis.hash,
            current_hash := c.current_hash } fuel).1
        = some (.ok false, some (.brokenLink demoGenesis.hash))) :=
  ⟨by decide, by decide,
   C5_deleted_block_broken_link hashFnC concEnc concDec 0 [(1, "A")]
     (fun b _ => concDec_concEnc b) (by decide) (by decide)
     demoGenesis (by decide)⟩

/-- Witness for claim C3 at the concrete instances: the hypotheses hold
for the concrete hasher and serializer on the payload sequence
`["A", "B"]`, and the conclusion follows by the theorem. -/
theorem C3_open_append_validate_valid_witness :
    (∀ b ∈ chainBlocks hashFnC 0 [(1, "A"), (2, "B")], concDec (concEnc b) = some b) ∧
    (chainHashes hashFnC 0 [(1, "A"), (2, "B")]).Nodup ∧
    (∀ x ∈ chainHashes hashFnC 0 [(1, "A"), (2, "B")], x ≠ "0" ∧ x ≠ "LAST") ∧
    (∃ c0 c : Blockchain,
      Blockchain.new hashFnC concEnc 0 Store.empty false false false = .ok c0 ∧
      runAppends hashFnC concEnc c0 [(1, "A"), (2, "B")] = .ok c ∧
      ∃ fuel, (Blockchain.is_chain_valid hashFnC concDec c fuel).1
        = some (.ok true, some .genesisReached)) :=
  ⟨fun b _ => concDec_concEnc b, by decide, by decide,
   C3_open_append_validate_valid hashFnC concEnc concDec 0 [(1, "A"), (2, "B")]
     (fun b _ => concDec_concEnc b) (by decide) (by decide)⟩

/-- The genesis-only chain produced by `Blockchain::new` on the empty
store, at the concrete instances. -/
def demoC0 : Blockchain :=
  { db := (Store.empty.insert demoGenesis.hash (concEnc demoGenesis)).insert "LAST"
      demoGenesis.hash,
    current_hash := demoGenesis.hash }

/-- Claim C1, amended: if either `db.insert` fails during append, the
error is returned and the in-memory tip (indeed the whole state reachable
so far) is unchanged; but the tip is assigned before `db.flush()`, so
when only the flush fails the call returns a store error with the
in-memory tip already advanced to the new block's hash. -/
theorem C1_add_block_tip_update_order
    (hashFn : Nat → String → String → String) (encodeBlock : Block → String)
    (c : Blockchain) (ts : Nat) (d : String) :
    (∀ f2 fF : Bool,
      Blockchain.add_block hashFn encodeBlock c ts d true f2 fF = (.error .storeErr, c)) ∧
    (∀ fF : Bool,
      (Blockchain.add_block hashFn encodeBlock c ts d false true fF).1 = .error .storeErr ∧
      (Blockchain.add_block hashFn encodeBlock c ts d false true fF).2.current_hash
        = c.current_hash) ∧
    ((Blockchain.add_block hashFn encodeBlock c ts d false false true).1
        = .error .storeErr ∧
      (Blockchain.add_block hashFn encodeBlock c ts d false false true).2.current_hash
        = (Block.new hashFn ts d c.current_hash).hash) :=
  ⟨fun _ _ => rfl, fun _ => ⟨rfl, rfl⟩, rfl, rfl⟩

/-- Counterexample to claim C1 as stated: on the genesis chain built by
open, an append whose two writes succeed but whose durability flush fails
returns a `StoreError` with the in-memory tip already changed. -/
theorem C1_counterexample :
    Blockchain.new hashFnC concEnc 0 Store.empty false false false = .ok demoC0 ∧
    (Blockchain.add_block hashFnC concEnc demoC0 1 "A" false false true).1
      = .error .storeErr ∧
    (Blockchain.add_block hashFnC concEnc demoC0 1 "A" false false true).2.current_hash
      ≠ demoC0.current_hash :=
  ⟨rfl, rfl, by decide⟩

/-- The per-iteration state threading of the validation loop: the `&self`
receiver comes back out exactly as it went in, at every fuel bound and
start hash. -/
theorem is_chain_valid_go_lookup (hashFn : Nat → String → String → String)
    (decodeBlock : String → Option Block) (c : Blockchain) (h : String)
    (fuel : Nat) (bytes : String) (hdb : c.db h = some bytes) :
    Blockchain.is_chain_valid_go hashFn decodeBlock c h (fuel + 1) =
      match decodeBlock bytes with
      | none => (some (.error .decodeErr, none), c)
      | some block =>
        if block.hash ≠ Block.calculate_hash hashFn block then
          (some (.ok false, some (.hashMismatch block.hash)), c)
        else if block.prev_hash = "0" then
          (some (.ok true, some .genesisReached), c)
        else
          Blockchain.is_chain_valid_go hashFn decodeBlock c block.prev_hash fuel := by
  rw [is_chain_valid_go_succ, hdb]

theorem is_chain_valid_go_state (hashFn : Nat → String → String → String)
    (decodeBlock : String → Option Block) (c : Blockchain) :
    ∀ (fuel : Nat) (h : String),
      (Blockchain.is_chain_valid_go hashFn decodeBlock c h fuel).2 = c := by
  intro fuel
  induction fuel with
  | zero => intro h; rfl
  | succ n ih =>
    intro h
    cases hdb : c.db h with
    | none => rw [is_chain_valid_go_succ, hdb]
    | some bytes =>
      rw [is_chain_valid_go_lookup hashFn decodeBlock c h n bytes hdb]
      split
      · rfl
      · split
        · rfl
        · split
          · rfl
          · exact ih _

/-- Claim C10: validation is read-only — for every store contents, tip and
fuel bound, the state returned by `is_chain_valid` has the same store
(every key) and the same in-memory tip as the input state, and a second
call on the returned state gives the same outcome as the first call. -/
theorem C10_is_chain_valid_read_only
    (hashFn : Nat → String → String → String) (decodeBlock : String → Option Block)
    (c : Blockchain) (fuel : Nat) :
    (∀ k : String, (Blockchain.is_chain_valid hashFn decodeBlock c fuel).2.db k = c.db k) ∧
    (Blockchain.is_chain_valid hashFn decodeBlock c fuel).2.current_hash
      = c.current_hash ∧
    Blockchain.is_chain_valid hashFn decodeBlock
        ((Blockchain.is_chain_valid hashFn decodeBlock c fuel).2) fuel
      = Blockchain.is_chain_valid hashFn decodeBlock c fuel := by
  have hst : (Blockchain.is_chain_valid hashFn decodeBlock c fuel).2 = c :=
    is_chain_valid_go_state hashFn decodeBlock c fuel c.current_hash
  rw [hst]
  exact ⟨fun _ => rfl, rfl, rfl⟩

/-- Claim C6: every block returned by `Block::new` stores exactly the
digest of `(timestamp, payload, predecessor_hash)` and carries those
inputs unchanged, and `calculate_hash` reads exactly those three fields —
never the stored hash — so two blocks that agree on them (and may differ
in the hash field) get the same digest. -/
theorem C6_block_new_hash_invariant (hashFn : Nat → String → String → String) :
    (∀ (ts : Nat) (d p : String),
      (Block.new hashFn ts d p).hash = hashFn ts d p ∧
      (Block.new hashFn ts d p).timestamp = ts ∧
      (Block.new hashFn ts d p).data = d ∧
      (Block.new hashFn ts d p).prev_hash = p ∧
      (Block.new hashFn ts d p).hash
        = Block.calculate_hash hashFn (Block.new hashFn ts d p)) ∧
    (∀ b1 b2 : Block, b1.timestamp = b2.timestamp → b1.data = b2.data →
      b1.prev_hash = b2.prev_hash →
      Block.calculate_hash hashFn b1 = Block.calculate_hash hashFn b2) := by
  refine ⟨fun ts d p => ⟨rfl, rfl, rfl, rfl, rfl⟩, ?_⟩
  intro b1 b2 h1 h2 h3
  rw [Block.calculate_hash, Block.calculate_hash, h1, h2, h3]

/-- Witness for claim C6: two concrete blocks differing only in their
stored hash field get the same recomputed digest. -/
theorem C6_block_new_hash_invariant_witness :
    Block.calculate_hash hashFnC
        { timestamp := 1, data := "a", prev_hash := "p", hash := "x" }
      = Block.calculate_hash hashFnC
        { timestamp := 1, data := "a", prev_hash := "p", hash := "y" } :=
  (C6_block_new_hash_invariant hashFnC).2
    { timestamp := 1, data := "a", prev_hash := "p", hash := "x" }
    { timestamp := 1, data := "a", prev_hash := "p", hash := "y" } rfl rfl rfl

/-- Claim C2, amended: when the bytes fetched for the current hash fail to
decode, `is_chain_valid` propagates the decode failure to the caller as
an error (the `?` operator on `String::from_utf8` / `serde_json::from_str`),
rather than reporting it as the normal invalid result. -/
theorem C2_decode_error_propagates
    (hashFn : Nat → String → String → String) (decodeBlock : String → Option Block)
    (c : Blockchain) (bytes : String)
    (hdb : c.db c.current_hash = some bytes)
    (hdec : decodeBlock bytes = none) (fuel : Nat) :
    (Blockchain.is_chain_valid hashFn decodeBlock c (fuel + 1)).1
      = some (.error .decodeErr, none) := by
  show (Blockchain.is_chain_valid_go hashFn decodeBlock c c.current_hash (fuel + 1)).1
    = some (.error .decodeErr, none)
  rw [is_chain_valid_go_succ]
  simp only [hdb, hdec]

/-- A store whose tip entry holds bytes that are not a serialized block. -/
def garbageChain : Blockchain :=
  { db := Store.empty.insert "K" "garbage", current_hash := "K" }

/-- Witness for claim C2's amended statement at the concrete instances. -/
theorem C2_decode_error_propagates_witness :
    garbageChain.db garbageChain.current_hash = some "garbage" ∧
    concDec "garbage" = none ∧
    (Blockchain.is_chain_valid hashFnC concDec garbageChain 1).1
      = some (.error .decodeErr, none) :=
  ⟨rfl, rfl, C2_decode_error_propagates hashFnC concDec garbageChain "garbage" rfl rfl 0⟩

/-- Counterexample to claim C2 as stated: on a store whose tip bytes do
not decode, validation returns an error, not a normal result value — so
the "checked and found invalid" outcome claimed for decode failures never
happens; the error return is the "could not check" shape the claim says
is avoided. -/
theorem C2_counterexample :
    concDec "garbage" = none ∧
    (Blockchain.is_chain_valid hashFnC concDec garbageChain 1).1
      = some (.error .decodeErr, none) ∧
    (∀ (b : Bool) (dg : Option Diag),
      (Blockchain.is_chain_valid hashFnC concDec garbageChain 1).1 ≠ some (.ok b, dg)) := by
  refine ⟨rfl, rfl, ?_⟩
  intro b dg hcontra
  rw [show (Blockchain.is_chain_valid hashFnC concDec garbageChain 1).1
    = some (.error .decodeErr, none) from rfl] at hcontra
  simp at hcontra

/-- Claim C8: a successful append writes the new block's record under its
self-hash key and rewrites the reserved tip key, and every other key of
the store is unchanged. -/
theorem C8_add_block_frame
    (hashFn : Nat → String → String → String) (encodeBlock : Block → String)
    (c : Blockchain) (ts : Nat) (d : String)
    (hnl : (Block.new hashFn ts d c.current_hash).hash ≠ "LAST")
    (k : String)
    (hk1 : k ≠ (Block.new hashFn ts d c.current_hash).hash)
    (hk2 : k ≠ "LAST") :
    (Blockchain.add_block hashFn encodeBlock c ts d false false false).2.db k = c.db k ∧
    (Blockchain.add_block hashFn encodeBlock c ts d false false false).2.db
        (Block.new hashFn ts d c.current_hash).hash
      = some (encodeBlock (Block.new hashFn ts d c.current_hash)) ∧
    (Blockchain.add_block hashFn encodeBlock c ts d false false false).2.db "LAST"
      = some (Block.new hashFn ts d c.current_hash).hash := by
  simp only [add_block_ok]
  refine ⟨?_, ?_, ?_⟩
  · rw [Store.insert_ne _ _ _ _ hk2, Store.insert_ne _ _ _ _ hk1]
  · rw [Store.insert_ne _ _ _ _ hnl, Store.insert_self]
  · rw [Store.insert_self]

/-- Witness for claim C8 at the concrete instances: appending to the
genesis chain leaves an unrelated key (here the root sentinel key) bound
as before, while the two written keys hold the new record and hash. -/
theorem C8_add_block_frame_witness :
    ((Block.new hashFnC 1 "A" demoC0.current_hash).hash ≠ "LAST") ∧
    ("0" ≠ (Block.new hashFnC 1 "A" demoC0.current_hash).hash) ∧
    ((Blockchain.add_block hashFnC concEnc demoC0 1 "A" false false false).2.db "0"
        = demoC0.db "0" ∧
      (Blockchain.add_block hashFnC concEnc demoC0 1 "A" false false false).2.db
          (Block.new hashFnC 1 "A" demoC0.current_hash).hash
        = some (concEnc (Block.new hashFnC 1 "A" demoC0.current_hash)) ∧
      (Blockchain.add_block hashFnC concEnc demoC0 1 "A" false false false).2.db "LAST"
        = some (Block.new hashFnC 1 "A" demoC0.current_hash).hash) :=
  ⟨by decide, by decide,
   C8_add_block_frame hashFnC concEnc demoC0 1 "A" (by decide) "0" (by decide) (by decide)⟩

/-- The block appended on top of `demoGenesis` by `add_block 1 "A"`. -/
def demoB1 : Block := Block.new hashFnC 1 "A" demoGenesis.hash

/-- The chain after appending `"A"` to the genesis chain, with every store
operation succeeding. -/
def demoC1 : Blockchain :=
  (Blockchain.add_block hashFnC concEnc demoC0 1 "A" false false false).2

/-- The tip block rebuilt with an edited payload and a correctly
recomputed self hash. -/
def retamperedTip : Block := Block.new hashFnC 1 "EVIL" demoGenesis.hash

/-- The store after a sophisticated tip tamper: the original tip record is
replaced by the re-hashed edited block under its new key, and the tip
pointer (both the `LAST` entry and the in-memory tip) is updated
consistently. -/
def retamperedChain : Blockchain :=
  { db := ((demoC1.db.remove demoB1.hash).insert retamperedTip.hash
      (concEnc retamperedTip)).insert "LAST" retamperedTip.hash,
    current_hash := retamperedTip.hash }

set_option maxRecDepth 40000 in
/-- Claim C7: there is a tampering of the tip block that validation cannot
detect.  On the concrete two-block chain built by open and one append,
replacing the tip block's payload, recomputing its self hash, storing it
under the new key and updating the tip pointer consistently yields a
store that validation reports fully valid, even though it differs from
the recorded chain (different tip payload and hash, original tip record
gone). -/
theorem C7_tip_retamper_undetected :
    (Blockchain.add_block hashFnC concEnc demoC0 1 "A" false false false).1 = .ok () ∧
    demoC1.current_hash = demoB1.hash ∧
    retamperedTip.data ≠ demoB1.data ∧
    retamperedTip.hash ≠ demoB1.hash ∧
    retamperedChain.db demoB1.hash = none ∧
    demoC1.db demoB1.hash = some (concEnc demoB1) ∧
    (Blockchain.is_chain_valid hashFnC concDec demoC1 2).1
      = some (.ok true, some .genesisReached) ∧
    (Blockchain.is_chain_valid hashFnC concDec retamperedChain 2).1
      = some (.ok true, some .genesisReached) :=
  ⟨rfl, rfl, by decide, by decide, by decide, by decide, rfl, rfl⟩

/-- A validation call that outruns every fuel bound: the model of the
source's `loop` never returning. -/
def validateDiverges (hashFn : Nat → String → String → String)
    (decodeBlock : String → Option Block) (c : Blockchain) : Prop :=
  ∀ fuel : Nat, (Blockchain.is_chain_valid hashFn decodeBlock c fuel).1 = none

/-- A block that is internally consistent under the collapsing hasher and
whose predecessor pointer is its own key. -/
def cycBlock : Block :=
  { timestamp := 0, data := "x", prev_hash := "C", hash := "C" }

/-- A store whose predecessor links form a cycle that never reaches the
root sentinel. -/
def cycChain : Blockchain :=
  { db := Store.empty.insert "C" (concEnc cycBlock), current_hash := "C" }

/-- Counterexample to claim C9 as stated: on a store whose hash-consistent
predecessor links form a cycle that never reaches the root sentinel, the
validation loop never returns — there is no cycle detection or traversal
cap in the code. -/
theorem C9_counterexample : validateDiverges constHash concDec cycChain := by
  have key : ∀ n : Nat,
      (Blockchain.is_chain_valid_go constHash concDec cycChain "C" n).1 = none := by
    intro n
    induction n with
    | zero => rfl
    | succ m ih =>
      rw [is_chain_valid_go_lookup constHash concDec cycChain "C" m (concEnc cycBlock) rfl]
      simp only [concDec_concEnc]
      rw [if_neg (show ¬ cycBlock.hash ≠ Block.calculate_hash constHash cycBlock from
        fun hne => hne rfl)]
      rw [if_neg (show ¬ cycBlock.prev_hash = "0" by decide)]
      exact ih
  exact fun fuel => key fuel

/-- Claim C9, amended: the loop does return on every store whose walk from
the tip reaches the root sentinel within the chain — in particular on
every well-formed stored chain — but nothing in the code bounds the
traversal on a corrupted store whose links cycle (see the
counterexample). -/
theorem C9_validate_terminates_on_wellformed
    (hashFn : Nat → String → String → String)
    (encodeBlock : Block → String) (decodeBlock : String → Option Block)
    (c : Blockchain) (bs : List Block)
    (hok : chainOK hashFn encodeBlock decodeBlock c.db c.current_hash bs) :
    ∃ fuel r, (Blockchain.is_chain_valid hashFn decodeBlock c fuel).1 = some r := by
  refine ⟨bs.length, (.ok true, some .genesisReached), ?_⟩
  show (Blockchain.is_chain_valid_go hashFn decodeBlock c c.current_hash bs.length).1
    = some (.ok true, some .genesisReached)
  rw [chainOK_valid hashFn encodeBlock decodeBlock c bs c.current_hash hok]

/-- Witness for claim C9's amended statement: the concrete genesis-only
chain is well-formed, and validation on it returns. -/
theorem C9_validate_terminates_on_wellformed_witness :
    chainOK hashFnC concEnc concDec demoC0.db demoC0.current_hash [demoGenesis] ∧
    ∃ fuel r, (Blockchain.is_chain_valid hashFnC concDec demoC0 fuel).1 = some r := by
  have hok : chainOK hashFnC concEnc concDec demoC0.db demoC0.current_hash [demoGenesis] := by
    rw [chainOK_cons]
    exact ⟨by decide, concDec_concEnc demoGenesis, rfl, rfl, rfl⟩
  exact ⟨hok,
    C9_validate_terminates_on_wellformed hashFnC concEnc concDec demoC0 [demoGenesis] hok⟩

end LedgerV1
